import Mathlib

/-!
Verification of the rating pipeline of `rank_clean.py` (repository dlo).

The development shallowly embeds the data model and the core operations of
the source file: the association-list "dict" operations, the report parser
(`parse_battle_report`), the match processor (`process_match_result`) and
the adjustment applier (`apply_manual_adjustments`).  The external rating
service (openskill PlackettLuce) is kept opaque as a `Model` structure whose
`rate` and `predict_draw` fields are arbitrary functions; the rating factory
`rating(name, mu, sigma)` simply stores its arguments, and the default
rating uses the library defaults mu = 25, sigma = 25/3.  Python floats are
embedded as rationals, datetimes as naturals, and every Python statement
that can raise (KeyError, IndexError, ZeroDivisionError, StopIteration,
AssertionError) is modelled by an `Option` result, `none` standing for a
raised exception.
-/

set_option maxRecDepth 4000

/-- A rating belief as produced by the rating service: identity plus a
Gaussian belief (mean `mu`, uncertainty `sigma`). -/
structure Rating where
  name : String
  mu : Rat
  sigma : Rat
deriving DecidableEq

/-- `ordinal()` of an openskill rating with the default `z = 3`:
`mu - 3 * sigma`. -/
def Rating.ordinal (r : Rating) : Rat := r.mu - 3 * r.sigma

/-- The rating factory `model.rating(name=n, mu=m, sigma=s)`: it stores its
arguments (the model is constructed with `balance=False, limit_sigma=False`,
so construction performs no adjustment). -/
def mkRating (name : String) (mu sigma : Rat) : Rating := ⟨name, mu, sigma⟩

/-- The rating factory `model.rating(name=n)` with library defaults
`mu = 25`, `sigma = 25/3`. -/
def defaultRating (name : String) : Rating := ⟨name, 25, 25 / 3⟩

/-- Per-teammate co-occurrence counters `{games, wins}`. -/
structure TeammateStats where
  games : Nat
  wins : Nat
deriving DecidableEq

/-- `PlayerData` of the source: one player's accumulated statistics. -/
structure PlayerData where
  steam_name : String
  rating_data : Rating
  player : Bool
  games_played : Nat
  wins : Nat
  ans_games : Nat
  ans_wins : Nat
  osp_games : Nat
  osp_wins : Nat
  history : List (Nat × Rat)
  teammates : List (String × TeammateStats)
deriving DecidableEq

/-- `PlayerInfo` of the source: one roster entry of a parsed match. -/
structure PlayerInfo where
  player_id : String
  steam_name : String
  faction : String
deriving DecidableEq

/-- `MatchData` of the source: a parsed match record. -/
structure MatchData where
  valid : Bool
  time : Nat
  teams : List (String × List PlayerInfo)
  winning_team : String
  avg_dlo : Rat
  match_quality : Rat
deriving DecidableEq

/-! ### Python dict operations, embedded as association lists

Python dicts are insertion-ordered with unique keys; they are embedded as
association lists.  `lookupKey` is `d[k]` / `d.get(k)`, `hasKey` is
`k in d`, `updateKey` mutates the value stored at a key in place, and
`dictInsert` is `d[k] = v` (overwrite in place, else append). -/

def lookupKey {α : Type} : List (String × α) → String → Option α
  | [], _ => none
  | e :: l, k => if e.1 = k then some e.2 else lookupKey l k

def hasKey {α : Type} (l : List (String × α)) (k : String) : Bool :=
  (lookupKey l k).isSome

def updateKey {α : Type} : List (String × α) → String → (α → α) → List (String × α)
  | [], _, _ => []
  | e :: l, k, f => (if e.1 = k then (e.1, f e.2) else e) :: updateKey l k f

def dictInsert {α : Type} (l : List (String × α)) (k : String) (v : α) :
    List (String × α) :=
  if hasKey l k then updateKey l k (fun _ => v) else l ++ [(k, v)]

/-! ### Report parser (`parse_battle_report`) -/

/-- The closed list of ANS hull keys. -/
def ANS_HULLKEYS : List String :=
  ["Stock/Sprinter Corvette",
   "Stock/Raines Frigate",
   "Stock/Keystone Destroyer",
   "Stock/Vauxhall Light Cruiser",
   "Stock/Axford Heavy Cruiser",
   "Stock/Solomon Battleship",
   "Stock/Levy Escort Carrier"]

/-- The closed list of OSP hull keys. -/
def OSP_HULLKEYS : List String :=
  ["Stock/Shuttle",
   "Stock/Tugboat",
   "Stock/Journeyman",
   "Stock/Bulk Feeder",
   "Stock/Ore Carrier",
   "Stock/Ocello Cruiser",
   "Stock/Bulk Hauler",
   "Stock/Container Hauler",
   "Stock/Container Hauler Refit"]

/-- `html.escape` on one character (quote=True default: escapes the five
characters `&`, `<`, `>`, the double quote and the apostrophe). -/
def htmlEscapeChar (c : Char) : String :=
  if c = '&' then "&amp;"
  else if c = '<' then "&lt;"
  else if c = '>' then "&gt;"
  else if c = Char.ofNat 34 then "&quot;"
  else if c = Char.ofNat 39 then "&#x27;"
  else String.singleton c

/-- `html.escape` of the source's output contract. -/
def htmlEscape (s : String) : String := String.join (s.data.map htmlEscapeChar)

/-- One `<Players>` child of the raw XML document: element texts are
`Option`s because a missing element / empty text is `None` in ElementTree. -/
structure RawPlayer where
  player_name : Option String
  account_id : Option String
  hullkeys : List String
deriving DecidableEq

/-- One `<Teams>` child of the raw XML document. -/
structure RawTeam where
  team_id : Option String
  players : List RawPlayer
deriving DecidableEq

/-- The raw battle-report document (the fields read by the parser). -/
structure RawReport where
  game_start_timestamp : Int
  game_duration : Int
  game_finished : Option String
  teams : List RawTeam
  winning_team : Option String
deriving DecidableEq

/-- Python truthiness of an ElementTree text field: `bool(None)` and
`bool("")` are `False`, every non-empty string (including `"false"`) is
`True`. -/
def textTruthy : Option String → Bool
  | none => false
  | some s => !s.isEmpty

/-- `html.escape(element.text) if element is not None else ''`. -/
def escOpt : Option String → String
  | none => ""
  | some s => htmlEscape s

/-- `element.text if element is not None else ''` (no escaping). -/
def textOrEmpty : Option String → String
  | none => ""
  | some s => s

/-- `all(k.text in ANS_HULLKEYS for k in player_hullkeys) and len(player_hullkeys)`. -/
def isPlayerANS (p : RawPlayer) : Bool :=
  p.hullkeys.all (fun k => ANS_HULLKEYS.contains k) && !p.hullkeys.isEmpty

/-- `all(k.text in OSP_HULLKEYS for k in player_hullkeys) and len(player_hullkeys)`. -/
def isPlayerOSP (p : RawPlayer) : Bool :=
  p.hullkeys.all (fun k => OSP_HULLKEYS.contains k) && !p.hullkeys.isEmpty

/-- The two sequential `if` statements of the per-player faction update:
`if is_player_ANS and team_faction != 'OSP': team_faction = 'ANS'` followed
by `if is_player_OSP and team_faction != 'ANS': team_faction = 'OSP'`. -/
def factionStep (tf : String) (p : RawPlayer) : String :=
  let tf1 := if isPlayerANS p = true ∧ tf ≠ "OSP" then "ANS" else tf
  if isPlayerOSP p = true ∧ tf1 ≠ "ANS" then "OSP" else tf1

/-- The `team_faction` accumulated over the players of one team, starting
from the empty string. -/
def resolveTeamFaction (players : List RawPlayer) : String :=
  players.foldl factionStep ""

/-- The faction of the first player of the list whose unit set fully
resolves to a faction, the empty string when none does (used to state the
corrected form of the tie-break claim). -/
def firstResolvedFaction : List RawPlayer → String
  | [] => ""
  | p :: ps =>
    if isPlayerANS p then "ANS"
    else if isPlayerOSP p then "OSP"
    else firstResolvedFaction ps

/-- Parsing of one team element: build the roster, stamp the resolved team
faction onto every roster entry, and run the
`assert p['faction'] in ['ANS', 'OSP']` loop (`none` models the
`AssertionError`). -/
def parseTeam (t : RawTeam) : Option (String × List PlayerInfo) :=
  if (t.players.map (fun p =>
        { player_id := escOpt p.account_id
          steam_name := escOpt p.player_name
          faction := resolveTeamFaction t.players : PlayerInfo })).all
      (fun p => p.faction == "ANS" || p.faction == "OSP") then
    some (textOrEmpty t.team_id,
      t.players.map (fun p =>
        { player_id := escOpt p.account_id
          steam_name := escOpt p.player_name
          faction := resolveTeamFaction t.players : PlayerInfo }))
  else none

/-- The `for team_element in root.findall('./Teams/*')` loop building
`teams_data` (a dict write per team). -/
def parseTeams : List RawTeam → List (String × List PlayerInfo) →
    Option (List (String × List PlayerInfo))
  | [], acc => some acc
  | t :: ts, acc =>
    match parseTeam t with
    | none => none
    | some e => parseTeams ts (dictInsert acc e.1 e.2)

/-- The invalid record returned by the basic-validity early return. -/
def invalidMatch (t : Nat) : MatchData :=
  { valid := false, time := t, teams := [], winning_team := "None"
    avg_dlo := 0, match_quality := 0 }

/-- `parse_battle_report`, given the externally parsed file timestamp and
the raw document.  `none` models an uncaught exception (the faction
assertion). -/
def parse_battle_report (game_time : Nat) (r : RawReport) : Option MatchData :=
  if r.game_start_timestamp = 0 ∨ r.game_duration > 7000 ∨ r.game_duration < 200 ∨
      textTruthy r.game_finished = false then
    some (invalidMatch game_time)
  else
    match parseTeams r.teams [] with
    | none => none
    | some teamsData =>
      some { valid := true, time := game_time, teams := teamsData
             winning_team := textOrEmpty r.winning_team
             avg_dlo := 0, match_quality := 0 }

/-! ### Match processor (`process_match_result`) -/

/-- The player database `Dict[str, PlayerData]`. -/
abbrev DB := List (String × PlayerData)

/-- The mutable pipeline state threaded through the processor: the player
database and the match-history list. -/
structure PState where
  database : DB
  match_history : List MatchData
deriving DecidableEq

/-- The opaque rating service (openskill `PlackettLuce`): a two-team
rate function and a draw-probability prediction. -/
structure Model where
  rate : List (List Rating) → List (List Rating)
  predict_draw : List (List Rating) → Rat

/-- A fresh `PlayerData` row as created on first appearance: zero counters,
default rating belief named by the player id, empty history and teammates. -/
def freshPlayer (steam_name player_id : String) : PlayerData :=
  { steam_name := steam_name
    rating_data := defaultRating player_id
    player := true
    games_played := 0, wins := 0
    ans_games := 0, ans_wins := 0
    osp_games := 0, osp_wins := 0
    history := [], teammates := [] }

/-- `if player_id not in database: database[player_id] = {...}`. -/
def get_or_create (db : DB) (player_id steam_name : String) : DB :=
  if hasKey db player_id then db else db ++ [(player_id, freshPlayer steam_name player_id)]

/-- The `for teammate in players` loop updating one player's teammate
co-occurrence map from their own perspective. -/
def updateTeammates (isWin : Bool) (player_id : String) (roster : List PlayerInfo)
    (tm : List (String × TeammateStats)) : List (String × TeammateStats) :=
  roster.foldl
    (fun tm t =>
      if t.player_id = player_id then tm
      else
        let tm := if hasKey tm t.player_id then tm else tm ++ [(t.player_id, ⟨0, 0⟩)]
        updateKey tm t.player_id
          (fun s => ⟨s.games + 1, if isWin then s.wins + 1 else s.wins⟩))
    tm

/-- The per-player database mutation of the first loop: lifetime games and
wins, per-faction games and wins, teammate counters.  The sequence of
`+=` statements of the source nets to this single record update. -/
def playerMutation (isWin : Bool) (faction : String) (roster : List PlayerInfo)
    (player_id : String) (d : PlayerData) : PlayerData :=
  { d with
    games_played := d.games_played + 1
    wins := d.wins + (if isWin then 1 else 0)
    ans_games := d.ans_games + (if faction = "ANS" then 1 else 0)
    ans_wins := d.ans_wins + (if faction = "ANS" ∧ isWin then 1 else 0)
    osp_games := d.osp_games + (if faction = "OSP" then 1 else 0)
    osp_wins := d.osp_wins + (if faction = "OSP" ∧ isWin then 1 else 0)
    teammates := updateTeammates isWin player_id roster d.teammates }

/-- Processing of one roster entry: get-or-create the row, collect the
current rating belief, apply the counter mutations.  `none` models the
`assert(player['faction'] in ['ANS', 'OSP'])` failure. -/
def processPlayer (winner team_id : String) (roster : List PlayerInfo) (db : DB)
    (p : PlayerInfo) : Option (DB × Rating) :=
  if p.faction = "ANS" ∨ p.faction = "OSP" then
    match lookupKey (get_or_create db p.player_id p.steam_name) p.player_id with
    | none => none
    | some pd =>
      some (updateKey (get_or_create db p.player_id p.steam_name) p.player_id
              (playerMutation (team_id = winner) p.faction roster p.player_id),
            pd.rating_data)
  else none

/-- The inner `for player in players` loop of one team: threads the
database and collects the team's rating beliefs in roster order. -/
def processRoster (winner team_id : String) (fullRoster : List PlayerInfo) :
    List PlayerInfo → DB → Option (DB × List Rating)
  | [], db => some (db, [])
  | p :: ps, db =>
    match processPlayer winner team_id fullRoster db p with
    | none => none
    | some (db', r) =>
      match processRoster winner team_id fullRoster ps db' with
      | none => none
      | some (db'', rs) => some (db'', r :: rs)

/-- The outer `for team_id, players in match_data['teams'].items()` loop:
mutates the database per roster and builds `updated_teams`. -/
def collectAndUpdate (winner : String) :
    List (String × List PlayerInfo) → DB → List (String × List Rating) →
    Option (DB × List (String × List Rating))
  | [], db, acc => some (db, acc)
  | e :: ts, db, acc =>
    match processRoster winner e.1 e.2 e.2 db with
    | none => none
    | some (db', rs) => collectAndUpdate winner ts db' (dictInsert acc e.1 rs)

/-- Removal of the (unique) entry of a key from a dict: `d.pop(k)`. -/
def eraseKeyFirst {α : Type} : List (String × α) → String → List (String × α)
  | [], _ => []
  | e :: l, k => if e.1 = k then l else e :: eraseKeyFirst l k

/-- `winner_team = updated_teams.pop(winner)` followed by
`other_team = updated_teams[next(iter(updated_teams))]`; `none` models the
`KeyError` / `StopIteration`. -/
def pickTeams (uts : List (String × List Rating)) (winner : String) :
    Option (List Rating × List Rating) :=
  match lookupKey uts winner with
  | none => none
  | some wt =>
    match eraseKeyFirst uts winner with
    | [] => none
    | e :: _ => some (wt, e.2)

/-- The placeholder-append loop: for every collected rating belief (in
winner-then-other order) append `(match.time, current ordinal)` to that
player's history.  `none` models the `KeyError`. -/
def appendPlaceholders (time : Nat) : List Rating → DB → Option DB
  | [], db => some db
  | r :: rs, db =>
    match lookupKey db r.name with
    | none => none
    | some _ =>
      appendPlaceholders time rs
        (updateKey db r.name
          (fun d => { d with history := d.history ++ [(time, d.rating_data.ordinal)] }))

/-- Arithmetic mean of the belief means of a list of ratings. -/
def avgMu (l : List Rating) : Rat := (l.map Rating.mu).sum / (l.length : Rat)

/-- Arithmetic mean of the belief uncertainties of a list of ratings. -/
def avgSigma (l : List Rating) : Rat := (l.map Rating.sigma).sum / (l.length : Rat)

/-- Padding of one team up to `largest` with `TEST_PLAYER` synthetic
entries carrying the pre-padding average belief of the team; `none` models
the `ZeroDivisionError` on an empty smaller team. -/
def padOne (team : List Rating) (largest : Nat) : Option (List Rating) :=
  if team.length < largest then
    if team.length = 0 then none
    else some (team ++
      List.replicate (largest - team.length)
        (mkRating "TEST_PLAYER" (avgMu team) (avgSigma team)))
  else some team

/-- The team-size balancing step for both teams (`largest_team` computed
once, before either padding). -/
def padTeams (wt ot : List Rating) : Option (List Rating × List Rating) :=
  match padOne wt (max wt.length ot.length) with
  | none => none
  | some wt' =>
    match padOne ot (max wt.length ot.length) with
    | none => none
    | some ot' => some (wt', ot')

/-- `avg_dlo` of the pooled padded teams:
`mean(mu) - 3.0 * mean(sigma)`; `none` models the `ZeroDivisionError`. -/
def computeAvgDlo (pool : List Rating) : Option Rat :=
  if pool.length = 0 then none
  else some (avgMu pool - 3 * avgSigma pool)

/-- `history[-1] = entry`: replace the last element; `none` models the
`IndexError` on an empty list. -/
def setLast {α : Type} (l : List α) (a : α) : Option (List α) :=
  match l with
  | [] => none
  | _ :: _ => some (l.dropLast ++ [a])

/-- The write-back loop over the rated teams: skip the `TEST_PLAYER`
sentinels, store the updated belief, and overwrite the player's most
recent history entry with `(match.time, new ordinal)`. -/
def writeBack (time : Nat) : List Rating → DB → Option DB
  | [], db => some db
  | r :: rs, db =>
    if r.name = "TEST_PLAYER" then writeBack time rs db
    else
      match lookupKey db r.name with
      | none => none
      | some pd =>
        match setLast pd.history (time, r.ordinal) with
        | none => none
        | some h =>
          writeBack time rs
            (updateKey db r.name (fun _ => { pd with rating_data := r, history := h }))

/-- `process_match_result`: the whole match processor.  The early rejection
(invalid record or unknown winning team) returns the state unmutated; every
exception inside the main path is `none`. -/
def process_match_result (M : Model) (md : MatchData) (st : PState) :
    Option (PState × MatchData) :=
  if md.valid = false ∨ lookupKey md.teams md.winning_team = none then
    some (st, md)
  else
    match collectAndUpdate md.winning_team md.teams st.database [] with
    | none => none
    | some (db1, uts) =>
      match pickTeams uts md.winning_team with
      | none => none
      | some (wt, ot) =>
        match appendPlaceholders md.time (wt ++ ot) db1 with
        | none => none
        | some db2 =>
          match padTeams wt ot with
          | none => none
          | some (wp, op) =>
            match computeAvgDlo (wp ++ op) with
            | none => none
            | some avg =>
              let md' := { md with avg_dlo := avg, match_quality := M.predict_draw [wp, op] }
              match writeBack md.time ((M.rate [wp, op]).flatten) db2 with
              | none => none
              | some db3 =>
                some ({ database := db3, match_history := st.match_history ++ [md'] }, md')

/-- The driver's fold of `process_match_result` over a sequence of parsed
matches (the per-file loop of `main`). -/
def runMatches (M : Model) : List MatchData → PState → Option PState
  | [], st => some st
  | md :: ms, st =>
    match process_match_result M md st with
    | none => none
    | some (st', _) => runMatches M ms st'

/-! ### Adjustment applier (`apply_manual_adjustments`) -/

/-- One manual correction directive. -/
structure Adjustment where
  steam_id : String
  steam_name : String
  mu_adjustment : Rat
  reason_for_adjustment : String
deriving DecidableEq

/-- The body of the adjustment loop for one directive: a known player's
belief is rebuilt with the shifted mean, same name and same sigma; an
unknown player is skipped. -/
def applyAdjustment (db : DB) (adj : Adjustment) : DB :=
  if hasKey db adj.steam_id then
    updateKey db adj.steam_id
      (fun pd =>
        { pd with
          rating_data :=
            mkRating pd.rating_data.name (pd.rating_data.mu + adj.mu_adjustment)
              pd.rating_data.sigma })
  else db

/-- `apply_manual_adjustments`: the ordered replay of all directives. -/
def apply_manual_adjustments (db : DB) (adjs : List Adjustment) : DB :=
  adjs.foldl applyAdjustment db

/-! ### Specification predicates -/

/-- The database name invariant: every stored row's rating belief carries
the row's key as its identity (rows are created with
`model.rating(name=player_id)` and write-backs store the rated belief under
its own name). -/
def NameInv (db : DB) : Prop :=
  ∀ k pd, lookupKey db k = some pd → pd.rating_data.name = k

/-- `games_played` of a player id, `0` when the id is not in the database. -/
def gpOf (db : DB) (id : String) : Nat :=
  ((lookupKey db id).map PlayerData.games_played).getD 0

/-- History length of a player id, `0` when the id is not in the database. -/
def hlOf (db : DB) (id : String) : Nat :=
  ((lookupKey db id).map (fun d => d.history.length)).getD 0

/-- Number of occurrences of a string in a list. -/
def occ (id : String) : List String → Nat
  | [] => 0
  | x :: xs => (if x = id then 1 else 0) + occ id xs

/-- All participant ids of a teams mapping, in roster order. -/
def participantIds : List (String × List PlayerInfo) → List String
  | [] => []
  | e :: ts => e.2.map PlayerInfo.player_id ++ participantIds ts

/-- Number of matches of a list in which a player id appears as a (real)
roster participant. -/
def countAppearances (id : String) : List MatchData → Nat
  | [] => 0
  | md :: ms => (if id ∈ participantIds md.teams then 1 else 0) + countAppearances id ms

/-- The processable-match well-formedness used by the fold invariant:
a valid record with exactly two distinctly named teams, a winning team
present among them, and no participant id repeated. -/
def Wf (md : MatchData) : Prop :=
  md.valid = true ∧ md.teams.length = 2 ∧ (md.teams.map Prod.fst).Nodup ∧
  lookupKey md.teams md.winning_team ≠ none ∧ (participantIds md.teams).Nodup

/-- The history-overwrite postcondition for one player id: the id is in the
database and its last history entry is the match timestamp paired with the
ordinal of its stored (post-update) rating belief. -/
def historyLastOk (db : DB) (pid : String) (t : Nat) : Bool :=
  match lookupKey db pid with
  | none => false
  | some pd => decide (pd.history.getLast? = some (t, pd.rating_data.ordinal))

/-- The rating-service identity contract: `rate` preserves the shape of its
input and the name carried by every belief, positionally. -/
def RateContract (M : Model) : Prop :=
  ∀ ts, (M.rate ts).map (fun team => team.map Rating.name) =
        ts.map (fun team => team.map Rating.name)

/-! ### Concrete fixtures used by witnesses and counterexamples -/

/-- A concrete rating service: identity update, constant draw prediction.
It satisfies `RateContract`. -/
def M0 : Model := { rate := fun ts => ts, predict_draw := fun _ => 0 }

/-- Fixture roster entry: winner-side player. -/
def pA0 : PlayerInfo := ⟨"a", "Alice", "ANS"⟩

/-- Fixture roster entry: loser-side player. -/
def pB0 : PlayerInfo := ⟨"b", "Bob", "OSP"⟩

/-- Fixture match: a valid 1v1, team "A" beats team "B" at time 5. -/
def md0 : MatchData :=
  { valid := true, time := 5, teams := [("A", [pA0]), ("B", [pB0])]
    winning_team := "A", avg_dlo := 99, match_quality := 99 }

/-- `md0` after processing: derived metrics filled in (both 0 under `M0`:
`avg_dlo = 25 - 3 * 25/3` and `predict_draw = 0`). -/
def md0out : MatchData := { md0 with avg_dlo := 0, match_quality := 0 }

/-- Alice's database row after processing `md0`. -/
def pdA0 : PlayerData :=
  ⟨"Alice", ⟨"a", 25, 25 / 3⟩, true, 1, 1, 1, 1, 0, 0, [(5, 0)], []⟩

/-- Bob's database row after processing `md0`. -/
def pdB0 : PlayerData :=
  ⟨"Bob", ⟨"b", 25, 25 / 3⟩, true, 1, 0, 0, 0, 1, 0, [(5, 0)], []⟩

/-- The pipeline state after processing `md0` from the empty state. -/
def st0fin : PState := ⟨[("a", pdA0), ("b", pdB0)], [md0out]⟩

/-- A raw report with duration exactly 200 (and otherwise valid fields). -/
def rep200 : RawReport :=
  { game_start_timestamp := 1, game_duration := 200, game_finished := some "true"
    teams := [], winning_team := some "None" }

/-- A raw report with duration exactly 7000. -/
def rep7000 : RawReport :=
  { game_start_timestamp := 1, game_duration := 7000, game_finished := some "true"
    teams := [], winning_team := some "None" }

/-- A raw report with duration 100 (below the lower bound). -/
def rep100 : RawReport :=
  { game_start_timestamp := 1, game_duration := 100, game_finished := some "true"
    teams := [], winning_team := some "None" }

/-- A raw report whose `GameFinished` text is the string `"false"`, with a
nonzero start timestamp and an in-bounds duration. -/
def repFinFalse : RawReport :=
  { game_start_timestamp := 1, game_duration := 1000, game_finished := some "false"
    teams := [], winning_team := some "None" }

/-- A raw player whose single fielded unit is an ANS hull. -/
def rawANS : RawPlayer := ⟨some "x", some "1", ["Stock/Raines Frigate"]⟩

/-- A raw player whose single fielded unit is an OSP hull. -/
def rawOSP : RawPlayer := ⟨some "y", some "2", ["Stock/Shuttle"]⟩

/-- A raw player with zero fielded units (resolves to neither faction). -/
def rawNoShips : RawPlayer := ⟨some "n", some "9", []⟩

/-- A basic-validity-passing raw report containing a team with zero
players. -/
def repEmptyTeam : RawReport :=
  { game_start_timestamp := 1, game_duration := 1000, game_finished := some "true"
    teams := [⟨some "TeamA", []⟩], winning_team := some "TeamA" }

/-- A basic-validity-passing raw report with a nonempty team none of whose
players resolves to a faction. -/
def repUnresolved : RawReport :=
  { game_start_timestamp := 1, game_duration := 1000, game_finished := some "true"
    teams := [⟨some "TeamA", [rawNoShips]⟩], winning_team := some "TeamA" }

/-- A basic-validity-passing raw report with one single-ANS-player team. -/
def repOneTeam : RawReport :=
  { game_start_timestamp := 1, game_duration := 1000, game_finished := some "true"
    teams := [⟨some "T", [rawANS]⟩], winning_team := some "T" }

/-- The parse result of `repOneTeam`. -/
def mdOneTeam : MatchData :=
  { valid := true, time := 2, teams := [("T", [⟨"1", "x", "ANS"⟩])]
    winning_team := "T", avg_dlo := 0, match_quality := 0 }

/-- Fixture database row for the adjustment witness. -/
def pdX0 : PlayerData :=
  ⟨"Xena", ⟨"x", 30, 4⟩, true, 2, 1, 1, 0, 1, 1, [(1, 18)], []⟩

/-- Fixture database for the adjustment witness. -/
def db9 : DB := [("x", pdX0)]

/-- Fixture adjustment directive: +5 to the mean of player "x". -/
def adj9 : Adjustment := ⟨"x", "Xena", 5, "manual correction"⟩

/-- Fixture winner team for the padding witness (two real members). -/
def c3wt : List Rating := [⟨"a", 25, 5⟩, ⟨"b", 35, 7⟩]

/-- Fixture other team for the padding witness (one real member). -/
def c3ot : List Rating := [⟨"c", 20, 2⟩]

/-- Alice's collected rating belief (fresh default). -/
def raA : Rating := ⟨"a", 25, 25 / 3⟩

/-- Bob's collected rating belief (fresh default). -/
def raB : Rating := ⟨"b", 25, 25 / 3⟩

/-- Alice's database row after the first processing loop of `md0`
(counters updated, history not yet appended). -/
def pdA1 : PlayerData := ⟨"Alice", raA, true, 1, 1, 1, 1, 0, 0, [], []⟩

/-- Bob's database row after the first processing loop of `md0`. -/
def pdB1 : PlayerData := ⟨"Bob", raB, true, 1, 0, 0, 0, 1, 0, [], []⟩

/-- The database after the first processing loop of `md0`. -/
def c4db1 : DB := [("a", pdA1), ("b", pdB1)]

/-- The collected `updated_teams` of `md0`. -/
def c4uts : List (String × List Rating) := [("A", [raA]), ("B", [raB])]

/-! ### Helper lemmas: dict operations -/

theorem lookupKey_updateKey_self {α : Type} (l : List (String × α)) (k : String) (f : α → α) :
    lookupKey (updateKey l k f) k = (lookupKey l k).map f := by
  induction l with
  | nil => rfl
  | cons e l ih =>
    by_cases h : e.1 = k
    · simp [updateKey, lookupKey, h]
    · simp [updateKey, lookupKey, h, ih]

theorem lookupKey_updateKey_ne {α : Type} (l : List (String × α)) (k k' : String)
    (f : α → α) (h : k' ≠ k) :
    lookupKey (updateKey l k f) k' = lookupKey l k' := by
  induction l with
  | nil => rfl
  | cons e l ih =>
    by_cases he : e.1 = k
    · have hne : k ≠ k' := fun hh => h hh.symm
      simp [updateKey, lookupKey, he, hne, ih]
    · simp only [updateKey, if_neg he, lookupKey]
      by_cases he' : e.1 = k'
      · simp [he']
      · simp [he', ih]

theorem lookupKey_append_some {α : Type} {l : List (String × α)} {k : String} {v : α}
    (l' : List (String × α)) (h : lookupKey l k = some v) :
    lookupKey (l ++ l') k = some v := by
  induction l with
  | nil => simp [lookupKey] at h
  | cons e l ih =>
    by_cases he : e.1 = k
    · simp [lookupKey, he] at h ⊢; exact h
    · simp [lookupKey, he] at h ⊢; exact ih h

theorem lookupKey_append_none {α : Type} {l : List (String × α)} {k : String}
    (l' : List (String × α)) (h : lookupKey l k = none) :
    lookupKey (l ++ l') k = lookupKey l' k := by
  induction l with
  | nil => rfl
  | cons e l ih =>
    by_cases he : e.1 = k
    · simp [lookupKey, he] at h
    · simp [lookupKey, he] at h ⊢; exact ih h

theorem hasKey_false_iff {α : Type} (l : List (String × α)) (k : String) :
    hasKey l k = false ↔ lookupKey l k = none := by
  unfold hasKey
  cases h : lookupKey l k <;> simp [h]

theorem hasKey_true_iff {α : Type} (l : List (String × α)) (k : String) :
    hasKey l k = true ↔ ∃ v, lookupKey l k = some v := by
  unfold hasKey
  cases h : lookupKey l k <;> simp [h]

/-! ### Helper lemmas: occurrence counts -/

theorem occ_append (id : String) (l l' : List String) :
    occ id (l ++ l') = occ id l + occ id l' := by
  induction l with
  | nil => simp [occ]
  | cons x xs ih => simp [occ, ih]; omega

theorem occ_eq_zero_of_not_mem {id : String} {l : List String} (h : id ∉ l) :
    occ id l = 0 := by
  induction l with
  | nil => rfl
  | cons x xs ih =>
    simp only [List.mem_cons, not_or] at h
    have hx : x ≠ id := fun hh => h.1 hh.symm
    simp [occ, hx, ih h.2]

theorem occ_of_nodup {l : List String} (id : String) (h : l.Nodup) :
    occ id l = if id ∈ l then 1 else 0 := by
  induction l with
  | nil => rfl
  | cons x xs ih =>
    rw [List.nodup_cons] at h
    by_cases hx : x = id
    · subst hx
      simp [occ, occ_eq_zero_of_not_mem h.1]
    · have hxx : ¬ id = x := fun hh => hx hh.symm
      rw [occ, if_neg hx, ih h.2]
      by_cases hin : id ∈ xs
      · simp [hin, List.mem_cons]
      · simp [hin, List.mem_cons, hxx]

/-! ### Helper lemmas: setLast -/

theorem setLast_some {α : Type} {l l' : List α} {a : α} (h : setLast l a = some l') :
    l'.length = l.length ∧ l'.getLast? = some a := by
  cases l with
  | nil => simp [setLast] at h
  | cons x xs =>
    simp only [setLast, Option.some.injEq] at h
    subst h
    refine ⟨?_, List.getLast?_concat _⟩
    simp [List.length_dropLast]

/-! ### Helper lemmas: name invariant and get_or_create -/

theorem NameInv_nil : NameInv [] := by
  intro k pd h
  simp [lookupKey] at h

theorem NameInv_updateKey {db : DB} {k : String} {f : PlayerData → PlayerData}
    (hinv : NameInv db)
    (hf : ∀ d, (f d).rating_data.name = d.rating_data.name ∨ (f d).rating_data.name = k) :
    NameInv (updateKey db k f) := by
  intro k' pd' h
  by_cases hk : k' = k
  · subst hk
    rw [lookupKey_updateKey_self] at h
    cases hd : lookupKey db k' with
    | none => rw [hd] at h; simp at h
    | some d =>
      rw [hd] at h; simp at h
      rcases hf d with hh | hh
      · rw [← h, hh]; exact hinv k' d hd
      · rw [← h]; exact hh
  · rw [lookupKey_updateKey_ne _ _ _ _ hk] at h
    exact hinv k' pd' h

theorem lookupKey_goc_self (db : DB) (pid nm : String) :
    lookupKey (get_or_create db pid nm) pid =
      some ((lookupKey db pid).getD (freshPlayer nm pid)) := by
  unfold get_or_create
  cases h : hasKey db pid with
  | true =>
    rcases (hasKey_true_iff db pid).mp h with ⟨v, hv⟩
    simp [hv]
  | false =>
    have hnone := (hasKey_false_iff db pid).mp h
    rw [if_neg (by simp [h]), lookupKey_append_none _ hnone, hnone]
    simp [lookupKey]

theorem lookupKey_goc_ne (db : DB) (pid nm k : String) (h : k ≠ pid) :
    lookupKey (get_or_create db pid nm) k = lookupKey db k := by
  unfold get_or_create
  cases hh : hasKey db pid with
  | true => simp [hh]
  | false =>
    rw [if_neg (by simp [hh])]
    cases hk : lookupKey db k with
    | some v => exact lookupKey_append_some _ hk
    | none =>
      rw [lookupKey_append_none _ hk]
      have hpk : ¬ pid = k := fun hx => h hx.symm
      simp [lookupKey, hpk, hk]

theorem NameInv_goc {db : DB} (pid nm : String) (hinv : NameInv db) :
    NameInv (get_or_create db pid nm) := by
  intro k pd h
  by_cases hk : k = pid
  · subst hk
    rw [lookupKey_goc_self] at h
    cases hd : lookupKey db k with
    | none => rw [hd] at h; simp at h; rw [← h]; rfl
    | some d => rw [hd] at h; simp at h; rw [← h]; exact hinv k d hd
  · rw [lookupKey_goc_ne _ _ _ _ hk] at h
    exact hinv k pd h

theorem gpOf_goc (db : DB) (pid nm id : String) :
    gpOf (get_or_create db pid nm) id = gpOf db id := by
  unfold gpOf
  by_cases hk : id = pid
  · subst hk
    rw [lookupKey_goc_self]
    cases hd : lookupKey db id <;> simp [freshPlayer]
  · rw [lookupKey_goc_ne _ _ _ _ hk]

theorem hlOf_goc (db : DB) (pid nm id : String) :
    hlOf (get_or_create db pid nm) id = hlOf db id := by
  unfold hlOf
  by_cases hk : id = pid
  · subst hk
    rw [lookupKey_goc_self]
    cases hd : lookupKey db id <;> simp [freshPlayer]
  · rw [lookupKey_goc_ne _ _ _ _ hk]

/-! ### Helper lemmas: the first processing loop -/

theorem processPlayer_props {w tid : String} {roster : List PlayerInfo} {db db' : DB}
    {p : PlayerInfo} {r : Rating}
    (h : processPlayer w tid roster db p = some (db', r)) (hinv : NameInv db) :
    NameInv db' ∧ r.name = p.player_id ∧
    (∀ id, gpOf db' id = gpOf db id + (if p.player_id = id then 1 else 0)) ∧
    (∀ id, hlOf db' id = hlOf db id) := by
  unfold processPlayer at h
  by_cases hf : p.faction = "ANS" ∨ p.faction = "OSP"
  · rw [if_pos hf] at h
    cases hl : lookupKey (get_or_create db p.player_id p.steam_name) p.player_id with
    | none => rw [hl] at h; simp at h
    | some pd =>
      rw [hl] at h
      simp only [Option.some.injEq, Prod.mk.injEq] at h
      obtain ⟨hdb, hr⟩ := h
      have hinv1 : NameInv (get_or_create db p.player_id p.steam_name) :=
        NameInv_goc _ _ hinv
      have hpd : pd = (lookupKey db p.player_id).getD (freshPlayer p.steam_name p.player_id) := by
        rw [lookupKey_goc_self] at hl
        simp only [Option.some.injEq] at hl
        exact hl.symm
      refine ⟨?_, ?_, ?_, ?_⟩
      · rw [← hdb]
        exact NameInv_updateKey hinv1 (fun d => Or.inl rfl)
      · rw [← hr]
        exact hinv1 p.player_id pd hl
      · intro id
        by_cases hid : id = p.player_id
        · rw [hid, ← hdb]
          unfold gpOf
          rw [lookupKey_updateKey_self, hl]
          cases hd : lookupKey db p.player_id with
          | none => rw [hd] at hpd; simp at hpd; rw [hpd]; simp [freshPlayer, playerMutation]
          | some d => rw [hd] at hpd; simp at hpd; rw [hpd]; simp [playerMutation]
        · rw [← hdb]
          unfold gpOf
          rw [lookupKey_updateKey_ne _ _ _ _ hid, lookupKey_goc_ne _ _ _ _ hid]
          have hne : ¬ p.player_id = id := fun hx => hid hx.symm
          simp [hne]
      · intro id
        by_cases hid : id = p.player_id
        · rw [hid, ← hdb]
          unfold hlOf
          rw [lookupKey_updateKey_self, hl]
          cases hd : lookupKey db p.player_id with
          | none => rw [hd] at hpd; simp at hpd; rw [hpd]; simp [freshPlayer, playerMutation]
          | some d => rw [hd] at hpd; simp at hpd; rw [hpd]; simp [playerMutation]
        · rw [← hdb]
          unfold hlOf
          rw [lookupKey_updateKey_ne _ _ _ _ hid, lookupKey_goc_ne _ _ _ _ hid]
  · rw [if_neg hf] at h
    simp at h

theorem processRoster_props {w tid : String} {fr : List PlayerInfo} :
    ∀ {ps : List PlayerInfo} {db db' : DB} {rs : List Rating},
    processRoster w tid fr ps db = some (db', rs) → NameInv db →
    NameInv db' ∧ rs.map Rating.name = ps.map PlayerInfo.player_id ∧
    (∀ id, gpOf db' id = gpOf db id + occ id (ps.map PlayerInfo.player_id)) ∧
    (∀ id, hlOf db' id = hlOf db id) := by
  intro ps
  induction ps with
  | nil =>
    intro db db' rs h hinv
    simp only [processRoster, Option.some.injEq, Prod.mk.injEq] at h
    obtain ⟨h1, h2⟩ := h
    subst h1; subst h2
    exact ⟨hinv, rfl, fun id => by simp [occ], fun id => rfl⟩
  | cons p ps ih =>
    intro db db' rs h hinv
    simp only [processRoster] at h
    split at h
    · exact Option.noConfusion h
    · rename_i dbm r hp
      split at h
      · exact Option.noConfusion h
      · rename_i dbf rsf hrec
        simp only [Option.some.injEq, Prod.mk.injEq] at h
        obtain ⟨h1, h2⟩ := h
        subst h1; subst h2
        obtain ⟨hinv1, hname1, hgp1, hhl1⟩ := processPlayer_props hp hinv
        obtain ⟨hinv2, hname2, hgp2, hhl2⟩ := ih hrec hinv1
        refine ⟨hinv2, ?_, ?_, ?_⟩
        · simp [hname1, hname2]
        · intro id
          rw [hgp2 id, hgp1 id]
          simp only [List.map_cons, occ]
          omega
        · intro id
          rw [hhl2 id, hhl1 id]

theorem collect_two {w ka kb : String} {ra rb : List PlayerInfo} {db db' : DB}
    {uts : List (String × List Rating)} (hne : ka ≠ kb)
    (h : collectAndUpdate w [(ka, ra), (kb, rb)] db [] = some (db', uts)) :
    ∃ dbA rsA rsB,
      processRoster w ka ra ra db = some (dbA, rsA) ∧
      processRoster w kb rb rb dbA = some (db', rsB) ∧
      uts = [(ka, rsA), (kb, rsB)] := by
  simp only [collectAndUpdate] at h
  cases hA : processRoster w ka ra ra db with
  | none => rw [hA] at h; simp at h
  | some xA =>
    obtain ⟨dbA, rsA⟩ := xA
    rw [hA] at h
    simp only [collectAndUpdate] at h
    cases hB : processRoster w kb rb rb dbA with
    | none => rw [hB] at h; simp at h
    | some xB =>
      obtain ⟨dbB, rsB⟩ := xB
      rw [hB] at h
      simp only [collectAndUpdate, Option.some.injEq, Prod.mk.injEq] at h
      obtain ⟨h1, h2⟩ := h
      subst h1
      refine ⟨dbA, rsA, rsB, rfl, hB, ?_⟩
      rw [← h2]
      have hin1 : dictInsert ([] : List (String × List Rating)) ka rsA = [(ka, rsA)] := by
        simp [dictInsert, hasKey, lookupKey]
      rw [hin1]
      simp [dictInsert, hasKey, lookupKey, hne]

theorem pickTeams_left {ka kb : String} (ta tb : List Rating) :
    pickTeams [(ka, ta), (kb, tb)] ka = some (ta, tb) := by
  simp [pickTeams, lookupKey, eraseKeyFirst]

theorem pickTeams_right {ka kb : String} (ta tb : List Rating) (hne : ka ≠ kb) :
    pickTeams [(ka, ta), (kb, tb)] kb = some (tb, ta) := by
  have h1 : ¬ ka = kb := hne
  simp [pickTeams, lookupKey, eraseKeyFirst, h1]

theorem appendPlaceholders_props (t : Nat) :
    ∀ {rs : List Rating} {db db' : DB},
    appendPlaceholders t rs db = some db' → NameInv db →
    NameInv db' ∧ (∀ id, gpOf db' id = gpOf db id) ∧
    (∀ id, hlOf db' id = hlOf db id + occ id (rs.map Rating.name)) := by
  intro rs
  induction rs with
  | nil =>
    intro db db' h hinv
    simp only [appendPlaceholders, Option.some.injEq] at h
    subst h
    exact ⟨hinv, fun id => rfl, fun id => by simp [occ]⟩
  | cons r rs ih =>
    intro db db' h hinv
    simp only [appendPlaceholders] at h
    cases hl : lookupKey db r.name with
    | none => rw [hl] at h; simp at h
    | some pd =>
      rw [hl] at h
      have hinv1 : NameInv (updateKey db r.name
          (fun d => { d with history := d.history ++ [(t, d.rating_data.ordinal)] })) :=
        NameInv_updateKey hinv (fun d => Or.inl rfl)
      obtain ⟨hinv2, hgp2, hhl2⟩ := ih h hinv1
      refine ⟨hinv2, ?_, ?_⟩
      · intro id
        rw [hgp2 id]
        unfold gpOf
        by_cases hid : id = r.name
        · rw [hid, lookupKey_updateKey_self, hl]; simp
        · rw [lookupKey_updateKey_ne _ _ _ _ hid]
      · intro id
        rw [hhl2 id]
        simp only [List.map_cons, occ]
        have hstep : hlOf (updateKey db r.name
            (fun d => { d with history := d.history ++ [(t, d.rating_data.ordinal)] })) id =
            hlOf db id + (if r.name = id then 1 else 0) := by
          unfold hlOf
          by_cases hid : id = r.name
          · rw [hid, lookupKey_updateKey_self, hl]
            simp
          · rw [lookupKey_updateKey_ne _ _ _ _ hid]
            have hne : ¬ r.name = id := fun hx => hid hx.symm
            simp [hne]
        rw [hstep]
        omega

theorem writeBack_counts (t : Nat) :
    ∀ {rs : List Rating} {db db' : DB},
    writeBack t rs db = some db' → NameInv db →
    NameInv db' ∧ (∀ id, gpOf db' id = gpOf db id) ∧ (∀ id, hlOf db' id = hlOf db id) := by
  intro rs
  induction rs with
  | nil =>
    intro db db' h hinv
    simp only [writeBack, Option.some.injEq] at h
    subst h
    exact ⟨hinv, fun id => rfl, fun id => rfl⟩
  | cons r rs ih =>
    intro db db' h hinv
    simp only [writeBack] at h
    by_cases htest : r.name = "TEST_PLAYER"
    · rw [if_pos htest] at h
      exact ih h hinv
    · rw [if_neg htest] at h
      split at h
      · exact Option.noConfusion h
      · rename_i pd hl
        split at h
        · exact Option.noConfusion h
        · rename_i hist hsl
          obtain ⟨hlen, _⟩ := setLast_some hsl
          have hinv1 : NameInv (updateKey db r.name
              (fun _ => { pd with rating_data := r, history := hist })) :=
            NameInv_updateKey hinv (fun d => Or.inr rfl)
          obtain ⟨hinv2, hgp2, hhl2⟩ := ih h hinv1
          refine ⟨hinv2, ?_, ?_⟩
          · intro id
            rw [hgp2 id]
            unfold gpOf
            by_cases hid : id = r.name
            · rw [hid, lookupKey_updateKey_self, hl]
              have : pd.games_played =
                  ({ pd with rating_data := r, history := hist } : PlayerData).games_played := rfl
              simp [← this]
            · rw [lookupKey_updateKey_ne _ _ _ _ hid]
          · intro id
            rw [hhl2 id]
            unfold hlOf
            by_cases hid : id = r.name
            · rw [hid, lookupKey_updateKey_self, hl]
              simp [hlen]
            · rw [lookupKey_updateKey_ne _ _ _ _ hid]

/-- The history-overwrite postcondition as a proposition. -/
theorem historyLastOk_iff (db : DB) (pid : String) (t : Nat) :
    historyLastOk db pid t = true ↔
    ∃ pd, lookupKey db pid = some pd ∧
      pd.history.getLast? = some (t, pd.rating_data.ordinal) := by
  unfold historyLastOk
  cases h : lookupKey db pid with
  | none => simp
  | some pd => simp

theorem writeBack_preserve (t : Nat) :
    ∀ {rs : List Rating} {db db' : DB} {pid : String},
    writeBack t rs db = some db' →
    (∃ pd, lookupKey db pid = some pd ∧
      pd.history.getLast? = some (t, pd.rating_data.ordinal)) →
    (∃ pd, lookupKey db' pid = some pd ∧
      pd.history.getLast? = some (t, pd.rating_data.ordinal)) := by
  intro rs
  induction rs with
  | nil =>
    intro db db' pid h hg
    simp only [writeBack, Option.some.injEq] at h
    subst h; exact hg
  | cons r rs ih =>
    intro db db' pid h hg
    simp only [writeBack] at h
    by_cases htest : r.name = "TEST_PLAYER"
    · rw [if_pos htest] at h
      exact ih h hg
    · rw [if_neg htest] at h
      split at h
      · exact Option.noConfusion h
      · rename_i pd hl
        split at h
        · exact Option.noConfusion h
        · rename_i hist hsl
          obtain ⟨_, hlast⟩ := setLast_some hsl
          refine ih h ?_
          by_cases hid : pid = r.name
          · refine ⟨{ pd with rating_data := r, history := hist }, ?_, ?_⟩
            · rw [hid, lookupKey_updateKey_self, hl]; rfl
            · simpa using hlast
          · obtain ⟨pd0, hpd0, hg0⟩ := hg
            exact ⟨pd0, by rw [lookupKey_updateKey_ne _ _ _ _ hid]; exact hpd0, hg0⟩

theorem writeBack_establish (t : Nat) :
    ∀ {rs : List Rating} {db db' : DB} {pid : String},
    writeBack t rs db = some db' →
    pid ∈ rs.map Rating.name → pid ≠ "TEST_PLAYER" →
    (∃ pd, lookupKey db' pid = some pd ∧
      pd.history.getLast? = some (t, pd.rating_data.ordinal)) := by
  intro rs
  induction rs with
  | nil =>
    intro db db' pid h hmem
    simp at hmem
  | cons r rs ih =>
    intro db db' pid h hmem htestp
    simp only [writeBack] at h
    rcases List.mem_cons.mp hmem with hh | hh
    · have htest : ¬ r.name = "TEST_PLAYER" := by rw [← hh]; exact htestp
      rw [if_neg htest] at h
      split at h
      · exact Option.noConfusion h
      · rename_i pd hl
        split at h
        · exact Option.noConfusion h
        · rename_i hist hsl
          obtain ⟨_, hlast⟩ := setLast_some hsl
          refine writeBack_preserve t h ?_
          refine ⟨{ pd with rating_data := r, history := hist }, ?_, ?_⟩
          · rw [hh, lookupKey_updateKey_self, hl]; rfl
          · simpa using hlast
    · by_cases htest : r.name = "TEST_PLAYER"
      · rw [if_pos htest] at h
        exact ih h hh htestp
      · rw [if_neg htest] at h
        split at h
        · exact Option.noConfusion h
        · rename_i pd hl
          split at h
          · exact Option.noConfusion h
          · rename_i hist hsl
            exact ih h hh htestp

/-! ### Helper lemmas: padding -/

theorem padOne_of_ge {team : List Rating} {largest : Nat} (h : ¬ team.length < largest) :
    padOne team largest = some team := by
  unfold padOne
  rw [if_neg h]

theorem padOne_of_lt {team : List Rating} {largest : Nat} (h : team.length < largest)
    (hne : team ≠ []) :
    padOne team largest = some (team ++
      List.replicate (largest - team.length)
        (mkRating "TEST_PLAYER" (avgMu team) (avgSigma team))) := by
  unfold padOne
  rw [if_pos h, if_neg (by simpa using hne)]

theorem padTeams_append {wt ot wp op : List Rating}
    (h : padTeams wt ot = some (wp, op)) :
    (∃ ex, wp = wt ++ ex) ∧ (∃ ex, op = ot ++ ex) := by
  unfold padTeams at h
  cases h1 : padOne wt (max wt.length ot.length) with
  | none => rw [h1] at h; exact Option.noConfusion h
  | some wt' =>
    rw [h1] at h
    cases h2 : padOne ot (max wt.length ot.length) with
    | none => rw [h2] at h; exact Option.noConfusion h
    | some ot' =>
      rw [h2] at h
      simp only [Option.some.injEq, Prod.mk.injEq] at h
      obtain ⟨hw, ho⟩ := h
      constructor
      · unfold padOne at h1
        split at h1
        · split at h1
          · exact Option.noConfusion h1
          · simp only [Option.some.injEq] at h1
            exact ⟨_, by rw [← hw, ← h1]⟩
        · simp only [Option.some.injEq] at h1
          exact ⟨[], by rw [← hw, ← h1, List.append_nil]⟩
      · unfold padOne at h2
        split at h2
        · split at h2
          · exact Option.noConfusion h2
          · simp only [Option.some.injEq] at h2
            exact ⟨_, by rw [← ho, ← h2]⟩
        · simp only [Option.some.injEq] at h2
          exact ⟨[], by rw [← ho, ← h2, List.append_nil]⟩

/-! ### Helper lemma: destructuring a successful main-path run -/

theorem process_destruct {M : Model} {md : MatchData} {st st' : PState} {md' : MatchData}
    (hv : md.valid = true) (hk : lookupKey md.teams md.winning_team ≠ none)
    (h : process_match_result M md st = some (st', md')) :
    ∃ db1 uts wt ot db2 wp op avg db3,
      collectAndUpdate md.winning_team md.teams st.database [] = some (db1, uts) ∧
      pickTeams uts md.winning_team = some (wt, ot) ∧
      appendPlaceholders md.time (wt ++ ot) db1 = some db2 ∧
      padTeams wt ot = some (wp, op) ∧
      computeAvgDlo (wp ++ op) = some avg ∧
      md' = { md with avg_dlo := avg, match_quality := M.predict_draw [wp, op] } ∧
      writeBack md.time ((M.rate [wp, op]).flatten) db2 = some db3 ∧
      st' = { database := db3, match_history := st.match_history ++ [md'] } := by
  unfold process_match_result at h
  have hcond : ¬ (md.valid = false ∨ lookupKey md.teams md.winning_team = none) := by
    rintro (hf | hn)
    · rw [hv] at hf; exact Bool.noConfusion hf
    · exact hk hn
  rw [if_neg hcond] at h
  split at h
  · exact Option.noConfusion h
  · rename_i x db1 uts hc
    split at h
    · exact Option.noConfusion h
    · rename_i y wt ot hp
      split at h
      · exact Option.noConfusion h
      · rename_i db2 hap
        split at h
        · exact Option.noConfusion h
        · rename_i z wp op hpad
          split at h
          · exact Option.noConfusion h
          · rename_i avg havg
            split at h
            · exact Option.noConfusion h
            · rename_i db3 hwb
              simp only [Option.some.injEq, Prod.mk.injEq] at h
              obtain ⟨h1, h2⟩ := h
              subst h2
              subst h1
              exact ⟨db1, uts, wt, ot, db2, wp, op, avg, db3, hc, hp, hap, hpad, havg,
                rfl, hwb, rfl⟩

/-! ### Helper lemmas: faction resolution -/

theorem factionStep_sticky (tf : String) (p : RawPlayer)
    (h : tf = "ANS" ∨ tf = "OSP") : factionStep tf p = tf := by
  rcases h with h | h <;> subst h <;>
    by_cases ha : isPlayerANS p = true <;> by_cases ho : isPlayerOSP p = true <;>
      simp [factionStep, ha, ho]

theorem foldl_factionStep_sticky (ps : List RawPlayer) (tf : String)
    (h : tf = "ANS" ∨ tf = "OSP") : List.foldl factionStep tf ps = tf := by
  induction ps with
  | nil => rfl
  | cons p ps ih => rw [List.foldl_cons, factionStep_sticky tf p h]; exact ih

theorem factionStep_empty (p : RawPlayer) :
    factionStep "" p =
      if isPlayerANS p then "ANS" else if isPlayerOSP p then "OSP" else "" := by
  by_cases ha : isPlayerANS p = true <;> by_cases ho : isPlayerOSP p = true <;>
    simp [factionStep, ha, ho]

theorem factionStep_noop (tf : String) (p : RawPlayer)
    (ha : isPlayerANS p = false) (ho : isPlayerOSP p = false) :
    factionStep tf p = tf := by
  simp [factionStep, ha, ho]

theorem resolve_of_unresolved {ps : List RawPlayer}
    (h : ∀ p ∈ ps, isPlayerANS p = false ∧ isPlayerOSP p = false) :
    resolveTeamFaction ps = "" := by
  unfold resolveTeamFaction
  induction ps with
  | nil => rfl
  | cons p ps ih =>
    rw [List.foldl_cons,
      factionStep_noop "" p (h p (List.mem_cons_self p ps)).1 (h p (List.mem_cons_self p ps)).2]
    exact ih (fun q hq => h q (List.mem_cons_of_mem p hq))

/-! ### Helper lemmas: team parsing -/

theorem parseTeam_none_of_unresolved {t : RawTeam} (hne : t.players ≠ [])
    (h : ∀ p ∈ t.players, isPlayerANS p = false ∧ isPlayerOSP p = false) :
    parseTeam t = none := by
  have hres : resolveTeamFaction t.players = "" := resolve_of_unresolved h
  obtain ⟨q, qs, hq⟩ : ∃ q qs, t.players = q :: qs := by
    cases hpl : t.players with
    | nil => exact absurd hpl hne
    | cons q qs => exact ⟨q, qs, rfl⟩
  rw [hq] at hres
  unfold parseTeam
  rw [hq, hres]
  simp

theorem parseTeam_good {t : RawTeam} {e : String × List PlayerInfo}
    (h : parseTeam t = some e) :
    ∀ p ∈ e.2, p.faction = "ANS" ∨ p.faction = "OSP" := by
  unfold parseTeam at h
  split at h
  · rename_i hall
    simp only [Option.some.injEq] at h
    subst h
    intro p hp
    rw [List.all_eq_true] at hall
    have hb := hall p hp
    simp at hb
    exact hb
  · exact Option.noConfusion h

theorem updateKey_const_mem {α : Type} {l : List (String × α)} {k : String} {v : α}
    {e : String × α} (h : e ∈ updateKey l k (fun _ => v)) : e ∈ l ∨ e = (k, v) := by
  induction l with
  | nil => simp [updateKey] at h
  | cons a l ih =>
    simp only [updateKey] at h
    rcases List.mem_cons.mp h with hh | hh
    · by_cases ha : a.1 = k
      · rw [if_pos ha] at hh
        right; rw [hh, ha]
      · rw [if_neg ha] at hh
        left; exact List.mem_cons.mpr (Or.inl hh)
    · rcases ih hh with h1 | h1
      · exact Or.inl (List.mem_cons_of_mem a h1)
      · exact Or.inr h1

theorem dictInsert_mem {α : Type} {acc : List (String × α)} {k : String} {v : α}
    {e : String × α} (h : e ∈ dictInsert acc k v) : e ∈ acc ∨ e = (k, v) := by
  unfold dictInsert at h
  split at h
  · exact updateKey_const_mem h
  · rcases List.mem_append.mp h with hh | hh
    · exact Or.inl hh
    · right; simpa using hh

theorem parseTeams_none {t : RawTeam} (hnone : parseTeam t = none) :
    ∀ (ts : List RawTeam) (acc : List (String × List PlayerInfo)),
    t ∈ ts → parseTeams ts acc = none := by
  intro ts
  induction ts with
  | nil => intro acc hmem; simp at hmem
  | cons t' ts ih =>
    intro acc hmem
    rcases List.mem_cons.mp hmem with hh | hh
    · subst hh
      simp [parseTeams, hnone]
    · simp only [parseTeams]
      cases hpt : parseTeam t' with
      | none => rfl
      | some e => exact ih _ hh

theorem parseTeams_good :
    ∀ (ts : List RawTeam) (acc out : List (String × List PlayerInfo)),
    parseTeams ts acc = some out →
    (∀ e ∈ acc, ∀ p ∈ e.2, p.faction = "ANS" ∨ p.faction = "OSP") →
    ∀ e ∈ out, ∀ p ∈ e.2, p.faction = "ANS" ∨ p.faction = "OSP" := by
  intro ts
  induction ts with
  | nil =>
    intro acc out h hacc
    simp only [parseTeams, Option.some.injEq] at h
    subst h; exact hacc
  | cons t ts ih =>
    intro acc out h hacc
    simp only [parseTeams] at h
    cases hpt : parseTeam t with
    | none => rw [hpt] at h; exact Option.noConfusion h
    | some e =>
      rw [hpt] at h
      refine ih _ _ h ?_
      intro e' he'
      rcases dictInsert_mem he' with hh | hh
      · exact hacc e' hh
      · rw [hh]
        exact parseTeam_good hpt

/-! ### Helper lemmas: per-match and whole-run counting -/

theorem process_counts {M : Model} {md : MatchData} {st st' : PState} {md' : MatchData}
    (hwf : Wf md) (h : process_match_result M md st = some (st', md'))
    (hinv : NameInv st.database) :
    NameInv st'.database ∧
    (∀ id, gpOf st'.database id =
      gpOf st.database id + (if id ∈ participantIds md.teams then 1 else 0)) ∧
    (∀ id, hlOf st'.database id =
      hlOf st.database id + (if id ∈ participantIds md.teams then 1 else 0)) := by
  obtain ⟨hv, hlen, hkeys, hwin, hnodup⟩ := hwf
  obtain ⟨e1, e2, hte⟩ := List.length_eq_two.mp hlen
  have hne : e1.1 ≠ e2.1 := by
    rw [hte] at hkeys
    simp [List.nodup_cons] at hkeys
    exact hkeys
  obtain ⟨db1, uts, wt, ot, db2, wp, op, avg, db3, hc, hp, hap, hpad, havg, hmd, hwb, hst⟩ :=
    process_destruct hv hwin h
  rw [hte] at hc
  obtain ⟨dbA, rsA, rsB, hA, hB, huts⟩ := collect_two hne hc
  obtain ⟨hinvA, hnamesA, hgpA, hhlA⟩ := processRoster_props hA hinv
  obtain ⟨hinv1, hnamesB, hgpB, hhlB⟩ := processRoster_props hB hinvA
  have hwcase : md.winning_team = e1.1 ∨ md.winning_team = e2.1 := by
    rw [hte] at hwin
    by_cases h1 : e1.1 = md.winning_team
    · exact Or.inl h1.symm
    · by_cases h2 : e2.1 = md.winning_team
      · exact Or.inr h2.symm
      · exact absurd (by simp [lookupKey, h1, h2]) hwin
  have hpi : participantIds md.teams =
      e1.2.map PlayerInfo.player_id ++ (e2.2.map PlayerInfo.player_id ++ []) := by
    rw [hte]; rfl
  have hocc : ∀ id, occ id (e1.2.map PlayerInfo.player_id) +
      occ id (e2.2.map PlayerInfo.player_id) =
      (if id ∈ participantIds md.teams then 1 else 0) := by
    intro id
    rw [← occ_of_nodup id hnodup, hpi, occ_append, occ_append]
    simp [occ]
  have hdbfin : st'.database = db3 := by rw [hst]
  have hnames_sum : ∀ id, occ id ((wt ++ ot).map Rating.name) =
      occ id (e1.2.map PlayerInfo.player_id) + occ id (e2.2.map PlayerInfo.player_id) := by
    intro id
    rcases hwcase with hw1 | hw2
    · rw [huts, hw1, pickTeams_left] at hp
      simp only [Option.some.injEq, Prod.mk.injEq] at hp
      obtain ⟨hwt, hot⟩ := hp
      rw [← hwt, ← hot, List.map_append, occ_append, hnamesA, hnamesB]
    · rw [huts, hw2, pickTeams_right _ _ hne] at hp
      simp only [Option.some.injEq, Prod.mk.injEq] at hp
      obtain ⟨hwt, hot⟩ := hp
      rw [← hwt, ← hot, List.map_append, occ_append, hnamesA, hnamesB]
      omega
  obtain ⟨hinv2, hgp2, hhl2⟩ := appendPlaceholders_props md.time hap hinv1
  obtain ⟨hinv3, hgp3, hhl3⟩ := writeBack_counts md.time hwb hinv2
  rw [hdbfin]
  refine ⟨hinv3, ?_, ?_⟩
  · intro id
    rw [hgp3 id, hgp2 id, hgpB id, hgpA id, ← hocc id]
    omega
  · intro id
    rw [hhl3 id, hhl2 id, hhlB id, hhlA id, hnames_sum id, ← hocc id]

theorem runMatches_counts {M : Model} :
    ∀ {ms : List MatchData} {st st' : PState},
    (∀ md ∈ ms, Wf md) → NameInv st.database →
    runMatches M ms st = some st' →
    NameInv st'.database ∧
    ∀ id, gpOf st'.database id = gpOf st.database id + countAppearances id ms ∧
          hlOf st'.database id = hlOf st.database id + countAppearances id ms := by
  intro ms
  induction ms with
  | nil =>
    intro st st' hwf hinv h
    simp only [runMatches, Option.some.injEq] at h
    subst h
    exact ⟨hinv, fun id => by simp [countAppearances]⟩
  | cons md ms ih =>
    intro st st' hwf hinv h
    simp only [runMatches] at h
    split at h
    · exact Option.noConfusion h
    · rename_i stm mdm hpr
      obtain ⟨hinv1, hgp1, hhl1⟩ :=
        process_counts (hwf md (List.mem_cons_self md ms)) hpr hinv
      obtain ⟨hinv2, hrest⟩ := ih (fun m hm => hwf m (List.mem_cons_of_mem md hm)) hinv1 h
      refine ⟨hinv2, fun id => ?_⟩
      obtain ⟨hg, hl⟩ := hrest id
      rw [hg, hl, hgp1 id, hhl1 id]
      simp only [countAppearances]
      omega

/-! ### The claims

The `Rat` arithmetic operations are `@[irreducible]` in the library; they
are made semireducible so that concrete witness computations can be closed
by `decide`. -/

attribute [local semireducible] Rat.mul Rat.add Rat.sub Rat.inv

/-- C1: for every `MatchRecord` that has `valid = False` or whose winning
team is not a key of its `teams` dict, `process_match_result` returns
without performing any mutation: the database, the match-history list and
the record itself come back unchanged. -/
theorem spec_c1 (M : Model) (md : MatchData) (st : PState)
    (h : md.valid = false ∨ lookupKey md.teams md.winning_team = none) :
    process_match_result M md st = some (st, md) := by
  unfold process_match_result
  rw [if_pos h]

theorem spec_c1_witness :
    ((invalidMatch 3).valid = false ∨
      lookupKey (invalidMatch 3).teams (invalidMatch 3).winning_team = none) ∧
    process_match_result M0 (invalidMatch 3) ⟨[], []⟩ = some (⟨[], []⟩, invalidMatch 3) :=
  ⟨Or.inl rfl, spec_c1 M0 (invalidMatch 3) ⟨[], []⟩ (Or.inl rfl)⟩

/-- C3: with both teams nonempty, the team-size balancing pads exactly the
smaller list up to the larger size with `TEST_PLAYER` synthetic entries
whose mu and sigma are the arithmetic means of the real members of that
smaller team computed from the unpadded list; equal-size teams receive no
synthetic entry; and the two padded lists always have equal length. -/
theorem spec_c3 (wt ot : List Rating) (hw : wt ≠ []) (ho : ot ≠ []) :
    (wt.length < ot.length →
      padTeams wt ot = some (wt ++ List.replicate (ot.length - wt.length)
        (mkRating "TEST_PLAYER" (avgMu wt) (avgSigma wt)), ot)) ∧
    (ot.length < wt.length →
      padTeams wt ot = some (wt, ot ++ List.replicate (wt.length - ot.length)
        (mkRating "TEST_PLAYER" (avgMu ot) (avgSigma ot)))) ∧
    (wt.length = ot.length → padTeams wt ot = some (wt, ot)) ∧
    (∀ wp op, padTeams wt ot = some (wp, op) → wp.length = op.length) := by
  have h1 : wt.length < ot.length →
      padTeams wt ot = some (wt ++ List.replicate (ot.length - wt.length)
        (mkRating "TEST_PLAYER" (avgMu wt) (avgSigma wt)), ot) := by
    intro hlt
    have hmax : max wt.length ot.length = ot.length := Nat.max_eq_right (Nat.le_of_lt hlt)
    unfold padTeams
    rw [hmax, padOne_of_lt hlt hw, padOne_of_ge (Nat.lt_irrefl _)]
  have h2 : ot.length < wt.length →
      padTeams wt ot = some (wt, ot ++ List.replicate (wt.length - ot.length)
        (mkRating "TEST_PLAYER" (avgMu ot) (avgSigma ot))) := by
    intro hlt
    have hmax : max wt.length ot.length = wt.length := Nat.max_eq_left (Nat.le_of_lt hlt)
    unfold padTeams
    rw [hmax, padOne_of_ge (Nat.lt_irrefl _), padOne_of_lt hlt ho]
  have h3 : wt.length = ot.length → padTeams wt ot = some (wt, ot) := by
    intro heq
    have hmax : max wt.length ot.length = wt.length := Nat.max_eq_left (Nat.le_of_eq heq.symm)
    unfold padTeams
    rw [hmax, padOne_of_ge (Nat.lt_irrefl _), padOne_of_ge (by omega)]
  refine ⟨h1, h2, h3, ?_⟩
  intro wp op hps
  rcases Nat.lt_trichotomy wt.length ot.length with hlt | heq | hgt
  · rw [h1 hlt] at hps
    simp only [Option.some.injEq, Prod.mk.injEq] at hps
    obtain ⟨hwp, hop⟩ := hps
    rw [← hwp, ← hop]
    simp only [List.length_append, List.length_replicate]
    omega
  · rw [h3 heq] at hps
    simp only [Option.some.injEq, Prod.mk.injEq] at hps
    obtain ⟨hwp, hop⟩ := hps
    rw [← hwp, ← hop]
    omega
  · rw [h2 hgt] at hps
    simp only [Option.some.injEq, Prod.mk.injEq] at hps
    obtain ⟨hwp, hop⟩ := hps
    rw [← hwp, ← hop]
    simp only [List.length_append, List.length_replicate]
    omega

theorem spec_c3_witness :
    padTeams c3wt c3ot = some (c3wt, c3ot ++ List.replicate (c3wt.length - c3ot.length)
      (mkRating "TEST_PLAYER" (avgMu c3ot) (avgSigma c3ot))) :=
  (spec_c3 c3wt c3ot (by decide) (by decide)).2.1 (by decide)

/-- C4: on the main path (valid record, known winner), the record's stored
`avg_dlo` equals `mean(mu) - 3 * mean(sigma)` over the concatenation of the
two padded team lists (synthetic entries included), and its stored
`match_quality` equals the rating service's draw prediction for the two
padded lists.  Both formulas depend only on the pre-update (padded) lists,
so both metrics are fixed before the rating update is invoked. -/
theorem spec_c4 (M : Model) (md : MatchData) (st st' : PState) (md' : MatchData)
    (db1 : DB) (uts : List (String × List Rating)) (wt ot wp op : List Rating)
    (hv : md.valid = true) (hk : lookupKey md.teams md.winning_team ≠ none)
    (h : process_match_result M md st = some (st', md'))
    (hc : collectAndUpdate md.winning_team md.teams st.database [] = some (db1, uts))
    (hp : pickTeams uts md.winning_team = some (wt, ot))
    (hpad : padTeams wt ot = some (wp, op)) :
    md'.avg_dlo = avgMu (wp ++ op) - 3 * avgSigma (wp ++ op) ∧
    md'.match_quality = M.predict_draw [wp, op] := by
  obtain ⟨db1x, utsx, wtx, otx, db2x, wpx, opx, avgx, db3x,
    hcx, hpx, hapx, hpadx, havgx, hmdx, hwbx, hstx⟩ := process_destruct hv hk h
  have e := hc.symm.trans hcx
  simp only [Option.some.injEq, Prod.mk.injEq] at e
  obtain ⟨e1, e2⟩ := e
  subst e1; subst e2
  have e := hp.symm.trans hpx
  simp only [Option.some.injEq, Prod.mk.injEq] at e
  obtain ⟨e3, e4⟩ := e
  subst e3; subst e4
  have e := hpad.symm.trans hpadx
  simp only [Option.some.injEq, Prod.mk.injEq] at e
  obtain ⟨e5, e6⟩ := e
  subst e5; subst e6
  unfold computeAvgDlo at havgx
  split at havgx
  · exact Option.noConfusion havgx
  · simp only [Option.some.injEq] at havgx
    rw [hmdx, ← havgx]
    exact ⟨rfl, rfl⟩

theorem spec_c4_witness :
    md0out.avg_dlo = avgMu ([raA] ++ [raB]) - 3 * avgSigma ([raA] ++ [raB]) ∧
    md0out.match_quality = M0.predict_draw [[raA], [raB]] :=
  spec_c4 M0 md0 ⟨[], []⟩ st0fin md0out c4db1 c4uts [raA] [raB] [raA] [raB]
    rfl (by decide) (by decide) (by decide) (by decide) (by decide)

/-- C2: after a successful run on a valid two-team match (under the rating
service identity contract, with no roster id equal to the reserved
`TEST_PLAYER` sentinel and a name-consistent database), every real
participant's last history entry is the match timestamp paired with the
ordinal of their stored post-update belief — the pre-update placeholder
appended before the rating call has been overwritten. -/
theorem spec_c2 (M : Model) (md : MatchData) (st st' : PState) (md' : MatchData)
    (ka kb : String) (ra rb : List PlayerInfo)
    (hteams : md.teams = [(ka, ra), (kb, rb)]) (hne : ka ≠ kb)
    (hv : md.valid = true) (hw : md.winning_team = ka ∨ md.winning_team = kb)
    (hinv : NameInv st.database)
    (hnotest : ∀ p ∈ ra ++ rb, p.player_id ≠ "TEST_PLAYER")
    (hrate : RateContract M)
    (h : process_match_result M md st = some (st', md')) :
    ∀ p ∈ ra ++ rb, historyLastOk st'.database p.player_id md.time = true := by
  intro p hp
  have hwin : lookupKey md.teams md.winning_team ≠ none := by
    rw [hteams]
    rcases hw with hh | hh <;> rw [hh] <;> simp [lookupKey, hne]
  obtain ⟨db1, uts, wt, ot, db2, wp, op, avg, db3,
    hc, hpk, hap, hpad, havg, hmd, hwb, hst⟩ := process_destruct hv hwin h
  rw [hteams] at hc
  obtain ⟨dbA, rsA, rsB, hA, hB, huts⟩ := collect_two hne hc
  obtain ⟨hinvA, hnamesA, hgA, hlA⟩ := processRoster_props hA hinv
  obtain ⟨hinv1, hnamesB, hgB, hlB⟩ := processRoster_props hB hinvA
  have hmem0 : p.player_id ∈ ra.map PlayerInfo.player_id ∨
      p.player_id ∈ rb.map PlayerInfo.player_id := by
    rcases List.mem_append.mp hp with hh | hh
    · exact Or.inl (List.mem_map_of_mem _ hh)
    · exact Or.inr (List.mem_map_of_mem _ hh)
  have hmem : p.player_id ∈ wt.map Rating.name ++ ot.map Rating.name := by
    rcases hw with hw1 | hw2
    · rw [huts, hw1, pickTeams_left] at hpk
      simp only [Option.some.injEq, Prod.mk.injEq] at hpk
      obtain ⟨hwt, hot⟩ := hpk
      rw [← hwt, ← hot, hnamesA, hnamesB]
      exact List.mem_append.mpr hmem0
    · rw [huts, hw2, pickTeams_right _ _ hne] at hpk
      simp only [Option.some.injEq, Prod.mk.injEq] at hpk
      obtain ⟨hwt, hot⟩ := hpk
      rw [← hwt, ← hot, hnamesA, hnamesB]
      exact List.mem_append.mpr hmem0.symm
  have hmem2 : p.player_id ∈ ((M.rate [wp, op]).flatten).map Rating.name := by
    have hflat : ((M.rate [wp, op]).flatten).map Rating.name =
        wp.map Rating.name ++ op.map Rating.name := by
      rw [List.map_flatten, hrate [wp, op]]
      simp
    rw [hflat]
    obtain ⟨⟨ew, hew⟩, ⟨eo, heo⟩⟩ := padTeams_append hpad
    rcases List.mem_append.mp hmem with hh | hh
    · refine List.mem_append.mpr (Or.inl ?_)
      rw [hew, List.map_append]
      exact List.mem_append.mpr (Or.inl hh)
    · refine List.mem_append.mpr (Or.inr ?_)
      rw [heo, List.map_append]
      exact List.mem_append.mpr (Or.inl hh)
  obtain ⟨pd, hpd, hlast⟩ := writeBack_establish md.time hwb hmem2 (hnotest p hp)
  have hdb : st'.database = db3 := by rw [hst]
  rw [hdb, historyLastOk_iff]
  exact ⟨pd, hpd, hlast⟩

theorem spec_c2_witness :
    historyLastOk st0fin.database pA0.player_id md0.time = true :=
  spec_c2 M0 md0 ⟨[], []⟩ st0fin md0out "A" "B" [pA0] [pB0] rfl (by decide) rfl
    (Or.inl rfl) NameInv_nil
    (by intro p hp; fin_cases hp <;> decide)
    (fun ts => rfl) (by decide) pA0 (by decide)

/-- C5: folding any sequence of processable two-team matches (valid,
distinct team keys, known winner, no duplicated participant) through
`process_match_result` from the empty database gives every stored player a
`games_played` equal to the number of matches in which they appear as a
real roster participant, which also equals their history length. -/
theorem spec_c5 (M : Model) (ms : List MatchData) (st' : PState)
    (hwf : ∀ md ∈ ms, Wf md)
    (h : runMatches M ms ⟨[], []⟩ = some st') :
    ∀ id pd, lookupKey st'.database id = some pd →
      pd.games_played = countAppearances id ms ∧
      pd.games_played = pd.history.length := by
  obtain ⟨_, hcounts⟩ := runMatches_counts hwf NameInv_nil h
  intro id pd hpd
  obtain ⟨hg, hl⟩ := hcounts id
  have hgp : gpOf st'.database id = pd.games_played := by
    unfold gpOf; rw [hpd]; rfl
  have hhl : hlOf st'.database id = pd.history.length := by
    unfold hlOf; rw [hpd]; rfl
  have e1 : pd.games_played = countAppearances id ms := by
    rw [← hgp, hg]; simp [gpOf, lookupKey]
  have e2 : pd.history.length = countAppearances id ms := by
    rw [← hhl, hl]; simp [hlOf, lookupKey]
  exact ⟨e1, by rw [e1, e2]⟩

theorem spec_c5_witness :
    pdA0.games_played = countAppearances "a" [md0] ∧
    pdA0.games_played = pdA0.history.length :=
  spec_c5 M0 [md0] st0fin (List.forall_mem_singleton.mpr (by unfold Wf; decide))
    (by decide) "a" pdA0 (by decide)

/-- C6 counterexample: the duration bound of the source is strict
(`> 7000 or < 200`), so records with duration exactly 200 or exactly 7000
are NOT rejected — `parse_battle_report` returns them with `valid = true`,
contradicting the claimed rejection of durations at 200 and at 7000. -/
theorem spec_c6_counterexample :
    parse_battle_report 0 rep200 =
      some { valid := true, time := 0, teams := [], winning_team := "None"
             avg_dlo := 0, match_quality := 0 } ∧
    parse_battle_report 0 rep7000 =
      some { valid := true, time := 0, teams := [], winning_team := "None"
             avg_dlo := 0, match_quality := 0 } := by
  constructor <;> decide

/-- C6 (amended): `parse_battle_report` marks a record invalid when its
declared duration is strictly below 200 or strictly above 7000 time-units
(durations exactly 200 or exactly 7000 are accepted); in particular a
record with duration 100 yields `valid = false`, and processing the
resulting invalid record performs zero database mutation. -/
theorem spec_c6 (t : Nat) (r : RawReport) (M : Model) (st : PState)
    (h : r.game_duration < 200 ∨ 7000 < r.game_duration) :
    parse_battle_report t r = some (invalidMatch t) ∧
    process_match_result M (invalidMatch t) st = some (st, invalidMatch t) := by
  constructor
  · unfold parse_battle_report
    rcases h with hl | hr
    · rw [if_pos (Or.inr (Or.inr (Or.inl hl)))]
    · rw [if_pos (Or.inr (Or.inl hr))]
  · unfold process_match_result
    have hv : (invalidMatch t).valid = false := rfl
    rw [if_pos (Or.inl hv)]

theorem spec_c6_witness :
    parse_battle_report 4 rep100 = some (invalidMatch 4) ∧
    process_match_result M0 (invalidMatch 4) ⟨[], []⟩ = some (⟨[], []⟩, invalidMatch 4) :=
  spec_c6 4 rep100 M0 ⟨[], []⟩ (Or.inl (by decide))

/-- C7: evaluation of the code at the failing input.  The finished-flag
check is `not bool(root.find('GameFinished').text)`; Python's `bool` on the
non-empty string `"false"` is `True`, so a report whose `GameFinished` text
is literally `"false"` (with nonzero start timestamp and in-bounds
duration) is NOT invalidated: the parser returns it with `valid = true`,
although the claim (and the intent of the check) requires `valid = false`. -/
theorem spec_c7_eval :
    textTruthy (some "false") = true ∧
    parse_battle_report 0 repFinFalse =
      some { valid := true, time := 0, teams := [], winning_team := "None"
             avg_dlo := 0, match_quality := 0 } := by
  constructor <;> decide

/-- C8 counterexample: a team whose first player fully resolves to ANS and
whose second player fully resolves to OSP ends with faction `"ANS"` — the
later OSP resolution does NOT overwrite the earlier ANS mark, contradicting
the claimed "OSP wins ties, ANS loses to it" overwrite. -/
theorem spec_c8_counterexample :
    resolveTeamFaction [rawANS] = "ANS" ∧ isPlayerOSP rawOSP = true ∧
    resolveTeamFaction [rawANS, rawOSP] = "ANS" := by
  refine ⟨by decide, by decide, by decide⟩

/-- C8 (amended): the per-team faction fold equals first-full-resolution
wins: once a team's faction has been set to either `"ANS"` or `"OSP"` by
the first player whose fielded units all lie in one faction's closed unit
list (with at least one unit fielded), no later player of that team
overwrites it — in either direction; an unmarked team stays unmarked until
some player fully resolves. -/
theorem spec_c8 : ∀ ps, resolveTeamFaction ps = firstResolvedFaction ps := by
  intro ps
  induction ps with
  | nil => rfl
  | cons p ps ih =>
    show List.foldl factionStep (factionStep "" p) ps = firstResolvedFaction (p :: ps)
    by_cases ha : isPlayerANS p = true
    · have h1 : factionStep "" p = "ANS" := by rw [factionStep_empty]; simp [ha]
      rw [h1, foldl_factionStep_sticky ps "ANS" (Or.inl rfl)]
      simp [firstResolvedFaction, ha]
    · by_cases ho : isPlayerOSP p = true
      · have h1 : factionStep "" p = "OSP" := by rw [factionStep_empty]; simp [ha, ho]
        rw [h1, foldl_factionStep_sticky ps "OSP" (Or.inr rfl)]
        simp [firstResolvedFaction, ha, ho]
      · have h1 : factionStep "" p = "" := by rw [factionStep_empty]; simp [ha, ho]
        rw [h1]
        simp only [firstResolvedFaction, Bool.not_eq_true] at *
        simp [ha, ho]
        exact ih

/-- C9: one adjustment directive for a player present in the database
replaces exactly that player's rating belief by one with the mean shifted
by `mu_adjustment`, the sigma and the identity unchanged, and every other
field and every other player untouched; a directive for an unknown id
leaves the database unchanged. -/
theorem spec_c9 (db : DB) (adj : Adjustment) :
    (∀ pd, lookupKey db adj.steam_id = some pd →
      lookupKey (apply_manual_adjustments db [adj]) adj.steam_id =
        some { pd with
          rating_data :=
            mkRating pd.rating_data.name (pd.rating_data.mu + adj.mu_adjustment)
              pd.rating_data.sigma }) ∧
    (∀ k, k ≠ adj.steam_id →
      lookupKey (apply_manual_adjustments db [adj]) k = lookupKey db k) ∧
    (lookupKey db adj.steam_id = none → apply_manual_adjustments db [adj] = db) := by
  have hsing : apply_manual_adjustments db [adj] = applyAdjustment db adj := rfl
  refine ⟨?_, ?_, ?_⟩
  · intro pd hpd
    rw [hsing]
    unfold applyAdjustment
    rw [if_pos ((hasKey_true_iff db adj.steam_id).mpr ⟨pd, hpd⟩)]
    rw [lookupKey_updateKey_self, hpd]
    rfl
  · intro k hk
    rw [hsing]
    unfold applyAdjustment
    by_cases hhk : hasKey db adj.steam_id = true
    · rw [if_pos hhk]
      exact lookupKey_updateKey_ne _ _ _ _ hk
    · rw [if_neg hhk]
  · intro hnone
    rw [hsing]
    unfold applyAdjustment
    rw [if_neg (by simp [hasKey, hnone])]

theorem spec_c9_witness :
    lookupKey (apply_manual_adjustments db9 [adj9]) adj9.steam_id =
      some { pdX0 with
        rating_data :=
          mkRating pdX0.rating_data.name (pdX0.rating_data.mu + adj9.mu_adjustment)
            pdX0.rating_data.sigma } :=
  (spec_c9 db9 adj9).1 pdX0 rfl

/-- C10 counterexample: a basic-validity-passing report containing a team
with zero players — a team for which (vacuously) no player's unit set
resolves to a faction — does NOT raise the faction assertion: the assert
loop iterates over zero players, and the parser returns a `valid = true`
record, contradicting the claimed assertion failure. -/
theorem spec_c10_counterexample :
    parse_battle_report 7 repEmptyTeam =
      some { valid := true, time := 7, teams := [("TeamA", [])]
             winning_team := "TeamA", avg_dlo := 0, match_quality := 0 } := by
  decide

/-- C10 (amended): (1) if a basic-validity-passing report contains a team
with at least one player none of whose players fully resolves to ANS or
OSP, `parse_battle_report` raises the faction assertion (returns no
record); (2) every record it returns with `valid = true` has every
participant's faction equal to `"ANS"` or `"OSP"`, so an unresolved
faction never reaches the match processor. -/
theorem spec_c10 :
    (∀ (t : Nat) (r : RawReport) (team : RawTeam),
      ¬ (r.game_start_timestamp = 0 ∨ r.game_duration > 7000 ∨ r.game_duration < 200 ∨
          textTruthy r.game_finished = false) →
      team ∈ r.teams → team.players ≠ [] →
      (∀ p ∈ team.players, isPlayerANS p = false ∧ isPlayerOSP p = false) →
      parse_battle_report t r = none) ∧
    (∀ (t : Nat) (r : RawReport) (md : MatchData),
      parse_battle_report t r = some md → md.valid = true →
      ∀ e ∈ md.teams, ∀ p ∈ e.2, p.faction = "ANS" ∨ p.faction = "OSP") := by
  constructor
  · intro t r team hvalid hmem hne hunres
    unfold parse_battle_report
    rw [if_neg hvalid]
    rw [parseTeams_none (parseTeam_none_of_unresolved hne hunres) r.teams [] hmem]
  · intro t r md hparse hvalid e he p hp
    unfold parse_battle_report at hparse
    split at hparse
    · simp only [Option.some.injEq] at hparse
      rw [← hparse] at hvalid
      exact Bool.noConfusion hvalid
    · split at hparse
      · exact Option.noConfusion hparse
      · rename_i teamsData hts
        simp only [Option.some.injEq] at hparse
        rw [← hparse] at he
        exact parseTeams_good r.teams [] teamsData hts (by intro e' he'; simp at he') e he p hp

theorem spec_c10_witness :
    parse_battle_report 3 repUnresolved = none ∧
    ((⟨"1", "x", "ANS"⟩ : PlayerInfo).faction = "ANS" ∨
     (⟨"1", "x", "ANS"⟩ : PlayerInfo).faction = "OSP") := by
  constructor
  · exact spec_c10.1 3 repUnresolved ⟨some "TeamA", [rawNoShips]⟩ (by decide) (by decide)
      (by decide) (List.forall_mem_singleton.mpr (by decide))
  · exact spec_c10.2 2 repOneTeam mdOneTeam (by decide) rfl ("T", [⟨"1", "x", "ANS"⟩])
      (by decide) ⟨"1", "x", "ANS"⟩ (by decide)
